import Mathlib

/-!
Verification of the typed tag persistence engine of package `tango`
(`tags.go`).  The relational store (SQLite) and the Go standard library
(`database/sql`, `encoding/json`) are external collaborators; they are
modelled at the value level:

* the `tags` table is a list of rows in rowid (insertion) order;
* the TEXT `value` column always holds the output of `json.Marshal`, so it
  is modelled by the JSON value that text denotes (`Json`), with
  `renderJson` giving the persisted text;
* each driver call that can fail (`Prepare`, `Begin`, `Query`, `Exec`,
  `Scan`, `Commit`) is given an explicit fault switch (`StoreFaults`) so
  that every error path of the Go code is a reachable branch of the model.
-/

/-- A JSON value: the denotation of the TEXT stored in the `value` column.
Numbers are modelled as integers (all numbers exercised by the package and
its tests are integral; floating point is outside the model). -/
inductive Json where
  | null : Json
  | bool : Bool → Json
  | num : Int → Json
  | str : String → Json
  | arr : List Json → Json
  | obj : List (String × Json) → Json

/-- A caller-supplied Go value handed to `Tag.Set` (the `value any`
parameter).  `strMap` models a `map[string]T` (Go maps have no duplicate
keys; `json.Marshal` emits their keys in ascending order).  `chanV` models
any Go value that `encoding/json` cannot serialize (a channel, a function,
a complex number): `json.Marshal` returns an error on it. -/
inductive GoValue where
  | null : GoValue
  | bool : Bool → GoValue
  | int : Int → GoValue
  | str : String → GoValue
  | arr : List GoValue → GoValue
  | strMap : List (String × GoValue) → GoValue
  | chanV : GoValue

/-- Insert a key-value pair into an assoc list, keeping keys ascending:
the order `json.Marshal` uses for Go map keys. -/
def insertByKey {α : Type} (p : String × α) : List (String × α) → List (String × α)
  | [] => [p]
  | q :: rest => if p.1 < q.1 then p :: q :: rest else q :: insertByKey p rest

/-- Sort an assoc list by key, ascending (insertion sort).  Models the
key sort performed by `json.Marshal` on Go maps. -/
def sortByKey {α : Type} : List (String × α) → List (String × α)
  | [] => []
  | p :: rest => insertByKey p (sortByKey rest)

/-- Strict ascending order on a list of keys. -/
def strSorted : List String → Bool
  | [] => true
  | [_] => true
  | a :: b :: rest => decide (a < b) && strSorted (b :: rest)

mutual

/-- `json.Marshal`: serialize a Go value to JSON, or fail (`none`) if the
value contains something not representable in JSON.  Go sorts map keys
before encoding the entries; encoding each entry first and then sorting
by key is equivalent since keys are preserved. -/
def GoValue.marshal : GoValue → Option Json
  | .null => some .null
  | .bool b => some (.bool b)
  | .int n => some (.num n)
  | .str s => some (.str s)
  | .arr xs => (marshalList xs).map Json.arr
  | .strMap kvs => (marshalObj kvs).map (fun l => Json.obj (sortByKey l))
  | .chanV => none

/-- Serialize each element of a Go slice. -/
def marshalList : List GoValue → Option (List Json)
  | [] => some []
  | x :: xs =>
    match x.marshal, marshalList xs with
    | some j, some js => some (j :: js)
    | _, _ => none

/-- Serialize each entry of a Go map. -/
def marshalObj : List (String × GoValue) → Option (List (String × Json))
  | [] => some []
  | kv :: rest =>
    match kv.2.marshal, marshalObj rest with
    | some j, some js => some ((kv.1, j) :: js)
    | _, _ => none

end

mutual

/-- `json.Unmarshal` into an `any` (interface) slot: every JSON value
decodes, objects become string-keyed maps and arrays become slices. -/
def decodeAny : Json → Option GoValue
  | .null => some .null
  | .bool b => some (.bool b)
  | .num n => some (.int n)
  | .str s => some (.str s)
  | .arr js => (decodeAnyList js).map GoValue.arr
  | .obj l => (decodeAnyObj l).map GoValue.strMap

/-- Decode each element of a JSON array into an `any` slot. -/
def decodeAnyList : List Json → Option (List GoValue)
  | [] => some []
  | j :: js =>
    match decodeAny j, decodeAnyList js with
    | some v, some vs => some (v :: vs)
    | _, _ => none

/-- Decode each entry of a JSON object into an `any` slot. -/
def decodeAnyObj : List (String × Json) → Option (List (String × GoValue))
  | [] => some []
  | kj :: rest =>
    match decodeAny kj.2, decodeAnyObj rest with
    | some v, some vs => some ((kj.1, v) :: vs)
    | _, _ => none

end

/-- `json.Unmarshal` into a nullable string slot (`*string`): JSON `null`
clears the slot to nil, a JSON string fills it, anything else is a type
error. -/
def decodeOptStr : Json → Option (Option String)
  | .null => some none
  | .str s => some (some s)
  | _ => none

mutual

/-- A Go value is well formed when every map in it is in canonical form:
keys strictly ascending (a Go map cannot hold duplicate keys, and
`json.Marshal` presents its entries in ascending key order). -/
def GoValue.wf : GoValue → Bool
  | .arr xs => wfList xs
  | .strMap kvs => strSorted (kvs.map Prod.fst) && wfObj kvs
  | _ => true

/-- Well-formedness of each element of a slice. -/
def wfList : List GoValue → Bool
  | [] => true
  | x :: xs => x.wf && wfList xs

/-- Well-formedness of each value of a map. -/
def wfObj : List (String × GoValue) → Bool
  | [] => true
  | kv :: rest => kv.2.wf && wfObj rest

end

/-- Escape one character for JSON string output. -/
def escapeChar (c : Char) : String :=
  if c = '"' then "\\\""
  else if c = '\\' then "\\\\"
  else if c = '\n' then "\\n"
  else if c = '\t' then "\\t"
  else if c = '\r' then "\\r"
  else String.singleton c

/-- Escape a string for JSON output. -/
def escapeStr (s : String) : String :=
  String.join (s.toList.map escapeChar)

mutual

/-- The JSON text persisted in the TEXT column for a given JSON value
(standard rendering; `encoding/json`'s additional HTML escaping is not
modelled, no claim depends on it). -/
def renderJson : Json → String
  | .null => "null"
  | .bool b => if b then "true" else "false"
  | .num n => toString n
  | .str s => "\"" ++ escapeStr s ++ "\""
  | .arr xs => "[" ++ renderList xs ++ "]"
  | .obj kvs => "\x7b" ++ renderObj kvs ++ "\x7d"

/-- Render the elements of a JSON array, comma separated. -/
def renderList : List Json → String
  | [] => ""
  | [j] => renderJson j
  | j :: rest => renderJson j ++ "," ++ renderList rest

/-- Render the entries of a JSON object, comma separated. -/
def renderObj : List (String × Json) → String
  | [] => ""
  | [kv] => "\"" ++ escapeStr kv.1 ++ "\":" ++ renderJson kv.2
  | kv :: rest => "\"" ++ escapeStr kv.1 ++ "\":" ++ renderJson kv.2 ++ "," ++ renderObj rest

end

/-- One row of the `tags` table.  The `id` column is auto-assigned and
never read by the package; rowid order is the order of the list holding
the rows. -/
structure Row where
  «universe» : String
  entity : String
  key : String
  value : Json

/-- Fault switches for the driver calls the package makes.  A `true`
switch makes every call of that kind fail, so each error branch of the Go
code is reachable in the model.  `okFaults` is the healthy store. -/
structure StoreFaults where
  prepare : Bool
  beginTx : Bool
  query : Bool
  exec : Bool
  scan : Bool
  commit : Bool

/-- The healthy store: no driver call fails. -/
def okFaults : StoreFaults := ⟨false, false, false, false, false, false⟩

/-- Only `rs.Scan` fails. -/
def scanFault : StoreFaults := ⟨false, false, false, false, true, false⟩

/-- Only `db.Prepare` / `tx.Prepare` fails. -/
def prepareFault : StoreFaults := ⟨true, false, false, false, false, false⟩

/-- Only `db.Begin` fails. -/
def beginFault : StoreFaults := ⟨false, true, false, false, false, false⟩

/-- Only `stmt.Query` fails. -/
def queryFault : StoreFaults := ⟨false, false, true, false, false, false⟩

/-- Only `stmt.Exec` fails. -/
def execFault : StoreFaults := ⟨false, false, false, true, false, false⟩

/-- Only `tx.Commit` fails. -/
def commitFault : StoreFaults := ⟨false, false, false, false, false, true⟩

/-- The errors the package can return: the two codec failures and the
driver failures, annotated by the failing call. -/
inductive TagError where
  | encodingError : TagError
  | decodingError : TagError
  | prepareFailed : TagError
  | beginFailed : TagError
  | queryFailed : TagError
  | execFailed : TagError
  | scanFailed : TagError

/-- The `WHERE universe = ? AND entity = ? AND key = ?` predicate shared
by `tagQuery` and `tagDelete`. -/
def rowMatches (u e k : String) (r : Row) : Bool :=
  decide (r.«universe» = u ∧ r.entity = e ∧ r.key = k)

/-- Semantics of the `tagUpsert` statement: `INSERT ... ON
CONFLICT(universe, entity, key) DO UPDATE SET value=excluded.value`.
A conflicting row keeps its rowid and gets the new value; otherwise the
row is appended. -/
def tagUpsert (db : List Row) (u e k : String) (v : Json) : List Row :=
  if db.any (rowMatches u e k) then
    db.map fun r => if rowMatches u e k r then { r with value := v } else r
  else
    db ++ [⟨u, e, k, v⟩]

/-- Semantics of the `tagQuery` statement: `SELECT value FROM tags WHERE
universe = ? AND entity = ? AND key = ?`; the unique index on the triple
makes at most one row match. -/
def tagQuery (db : List Row) (u e k : String) : Option Json :=
  (db.find? (rowMatches u e k)).map Row.value

/-- Semantics of the `tagDelete` statement: `DELETE FROM tags WHERE
universe = ? AND entity = ? AND key = ?`. -/
def tagDelete (db : List Row) (u e k : String) : List Row :=
  db.filter fun r => !(rowMatches u e k r)

/-- Semantics of the `tagKeys` statement: `SELECT key FROM tags WHERE
universe = ? AND entity = ?`.  The SQL has no ORDER BY clause, so the row
order is whatever the store's scan produces; the model returns table
(insertion) order, which is what a table scan yields. -/
def tagKeys (db : List Row) (u e : String) : List String :=
  (db.filter fun r => decide (r.«universe» = u ∧ r.entity = e)).map Row.key

/-- A `Tag` handle: the addressing triple.  The `db *sql.DB` field is the
shared store, modelled by passing the row list to each operation. -/
structure Tag where
  «universe» : String
  entity : String
  key : String

/-- `Tag.Get`: prepare the query, run it, report absence if no row,
otherwise scan the raw text and `json.Unmarshal` it into the output slot.
`dec` is the decoding of the caller's slot type and `slot` the slot's
current content (returned unchanged on every path that does not decode a
value). -/
def Tag.Get {α : Type} (tag : Tag) (dec : Json → Option α) (f : StoreFaults)
    (db : List Row) (slot : α) : Bool × α × Option TagError :=
  if f.prepare then (false, slot, some .prepareFailed)
  else if f.query then (false, slot, some .queryFailed)
  else
    match tagQuery db tag.«universe» tag.entity tag.key with
    | none => (false, slot, none)
    | some j =>
      if f.scan then (false, slot, some .scanFailed)
      else
        match dec j with
        | none => (false, slot, some .decodingError)
        | some v => (true, v, none)

/-- `Tag.Set`: `json.Marshal` the value (failing before any transaction
begins), then begin a transaction, prepare and execute the upsert, and
commit.  The deferred `tx.Rollback()` undoes the transaction on every
failure path; the error of `tx.Commit()` itself is not examined, so a
failed commit leaves the store unchanged and returns nil. -/
def Tag.Set (tag : Tag) (f : StoreFaults) (db : List Row) (value : GoValue) :
    List Row × Option TagError :=
  match value.marshal with
  | none => (db, some .encodingError)
  | some raw =>
    if f.beginTx then (db, some .beginFailed)
    else if f.prepare then (db, some .prepareFailed)
    else if f.exec then (db, some .execFailed)
    else if f.commit then (db, none)
    else (tagUpsert db tag.«universe» tag.entity tag.key raw, none)

/-- `Tag.Delete`: begin a transaction, prepare and execute the delete,
and commit.  As in `Set`, the `tx.Commit()` error is not examined. -/
def Tag.Delete (tag : Tag) (f : StoreFaults) (db : List Row) :
    List Row × Option TagError :=
  if f.beginTx then (db, some .beginFailed)
  else if f.prepare then (db, some .prepareFailed)
  else if f.exec then (db, some .execFailed)
  else if f.commit then (db, none)
  else (tagDelete db tag.«universe» tag.entity tag.key, none)

/-- A `TagBag` handle: the `(universe, entity)` pair. -/
structure TagBag where
  «universe» : String
  entity : String

/-- `TagBag.Tag`: pure constructor of a `Tag` handle. -/
def TagBag.Tag (bag : TagBag) (key : String) : Tag :=
  ⟨bag.«universe», bag.entity, key⟩

/-- `TagBag.Tags`: prepare and run the `tagKeys` query, then scan each
row into a fresh zero-valued `string`.  The result of `rs.Scan` is not
examined: a failed scan leaves the zero value `""`, which is appended to
the result anyway, and no error is reported. -/
def TagBag.Tags (bag : TagBag) (f : StoreFaults) (db : List Row) :
    Option (List String) × Option TagError :=
  if f.prepare then (none, some .prepareFailed)
  else if f.query then (none, some .queryFailed)
  else
    let keys := tagKeys db bag.«universe» bag.entity
    if f.scan then (some (keys.map fun _ => ""), none)
    else (some keys, none)

/-- The `Tags` engine: holds only the `db *sql.DB` pointer, which the
model passes explicitly, so the structure carries no data. -/
structure Tags where

/-- `Tags.TagBag`: pure constructor of a `TagBag` handle. -/
def Tags.TagBag (_tags : Tags) (u e : String) : TagBag :=
  ⟨u, e⟩

/-- `Tags.Tag`: shortcut through `TagBag`. -/
def Tags.Tag (tags : Tags) (u e k : String) : Tag :=
  (tags.TagBag u e).Tag k

/-- `NewTagsEngine`: wrap the store into an engine handle. -/
def NewTagsEngine : Tags := ⟨⟩

/-- The match predicate ignores the `value` column. -/
theorem rowMatches_update (u e k : String) (v : Json) (r : Row) :
    rowMatches u e k { r with value := v } = rowMatches u e k r := rfl

/-- The freshly inserted row matches its own triple. -/
theorem rowMatches_self (u e k : String) (v : Json) :
    rowMatches u e k ⟨u, e, k, v⟩ = true := by
  simp [rowMatches]

/-- A matching row carries exactly the triple of the predicate. -/
theorem rowMatches_fields {u e k : String} {r : Row} (h : rowMatches u e k r = true) :
    r.«universe» = u ∧ r.entity = e ∧ r.key = k := by
  simpa [rowMatches] using h

/-- After the conflict branch of the upsert, the first matching row holds
the new value. -/
theorem find?_map_update (u e k : String) (v : Json) :
    ∀ db : List Row, db.any (rowMatches u e k) = true →
      (List.find? (rowMatches u e k)
        (db.map fun r => if rowMatches u e k r then { r with value := v } else r)).map
          Row.value = some v := by
  intro db
  induction db with
  | nil => intro h; simp at h
  | cons a l ih =>
    intro h
    by_cases ha : rowMatches u e k a = true
    · simp [ha, List.find?_cons, rowMatches_update]
    · simp only [List.any_cons, Bool.or_eq_true] at h
      rcases h with h' | h'
      · exact absurd h' ha
      · simpa [ha, List.find?_cons, rowMatches_update] using ih h'

/-- Looking up a triple right after upserting it yields the new value. -/
theorem tagQuery_upsert (db : List Row) (u e k : String) (v : Json) :
    tagQuery (tagUpsert db u e k v) u e k = some v := by
  unfold tagUpsert tagQuery
  by_cases h : db.any (rowMatches u e k) = true
  · simpa [h] using find?_map_update u e k v db h
  · have hnone : List.find? (rowMatches u e k) db = none := by
      rw [List.find?_eq_none]
      intro x hx hpx
      exact h (List.any_eq_true.mpr ⟨x, hx, hpx⟩)
    have : ∀ l : List Row, List.find? (rowMatches u e k) l = none →
        List.find? (rowMatches u e k) (l ++ [⟨u, e, k, v⟩]) = some ⟨u, e, k, v⟩ := by
      intro l
      induction l with
      | nil => intro _; simp [List.find?_cons, rowMatches_self]
      | cons a l2 ih2 =>
        intro hl
        rw [List.find?_eq_none] at hl
        have ha : ¬rowMatches u e k a = true := hl a (List.mem_cons_self a l2)
        have hl2 : List.find? (rowMatches u e k) l2 = none := by
          rw [List.find?_eq_none]
          intro x hx
          exact hl x (List.mem_cons_of_mem a hx)
        rw [List.cons_append, List.find?_cons_of_neg _ ha]
        exact ih2 hl2
    simp [h, this db hnone]

/-- Deleting a triple that has no row leaves the table unchanged. -/
theorem tagDelete_of_absent {db : List Row} {u e k : String}
    (h : tagQuery db u e k = none) : tagDelete db u e k = db := by
  unfold tagQuery at h
  rw [Option.map_eq_none'] at h
  rw [List.find?_eq_none] at h
  unfold tagDelete
  rw [List.filter_eq_self]
  intro a ha
  simp [h a ha]

/-- After a delete, the triple has no row. -/
theorem tagQuery_tagDelete (db : List Row) (u e k : String) :
    tagQuery (tagDelete db u e k) u e k = none := by
  unfold tagQuery
  rw [Option.map_eq_none']
  rw [List.find?_eq_none]
  intro x hx
  have := List.of_mem_filter hx
  simp only [Bool.not_eq_true'] at this
  simp [this]

/-- Deleting twice is the same as deleting once. -/
theorem tagDelete_idem (db : List Row) (u e k : String) :
    tagDelete (tagDelete db u e k) u e k = tagDelete db u e k :=
  tagDelete_of_absent (tagQuery_tagDelete db u e k)

/-- The tail of a strictly sorted key list is strictly sorted. -/
theorem strSorted_tail {a : String} {l : List String}
    (h : strSorted (a :: l) = true) : strSorted l = true := by
  cases l with
  | nil => rfl
  | cons b rest =>
    rw [strSorted, Bool.and_eq_true] at h
    exact h.2

/-- Sorting an assoc list whose keys are already strictly ascending is
the identity; this is why `json.Marshal` applied to a canonical Go map
changes nothing. -/
theorem sortByKey_eq_self {α : Type} :
    ∀ l : List (String × α), strSorted (l.map Prod.fst) = true → sortByKey l = l := by
  intro l
  induction l with
  | nil => intro _; rfl
  | cons p rest ih =>
    intro h
    have hrest : strSorted (rest.map Prod.fst) = true := by
      rw [List.map_cons] at h
      exact strSorted_tail h
    rw [sortByKey, ih hrest]
    cases rest with
    | nil => rfl
    | cons q r2 =>
      have hpq : p.1 < q.1 := by
        rw [List.map_cons, List.map_cons, strSorted, Bool.and_eq_true,
          decide_eq_true_eq] at h
        exact h.1
      rw [insertByKey, if_pos hpq]

/-- Serializing a Go map preserves its keys in order. -/
theorem marshalObj_keys :
    ∀ (kvs : List (String × GoValue)) (l : List (String × Json)),
      marshalObj kvs = some l → l.map Prod.fst = kvs.map Prod.fst := by
  intro kvs
  induction kvs with
  | nil =>
    intro l h
    rw [marshalObj] at h
    cases h
    rfl
  | cons kv rest ih =>
    intro l h
    rw [marshalObj] at h
    cases hm : kv.2.marshal with
    | none => rw [hm] at h; exact absurd h (by simp)
    | some j =>
      cases ho : marshalObj rest with
      | none => rw [hm, ho] at h; exact absurd h (by simp)
      | some js =>
        rw [hm, ho] at h
        cases h
        rw [List.map_cons, List.map_cons, ih js ho]

mutual

/-- Round trip of the codec on one value: decoding what `json.Marshal`
produced recovers the value, for canonical (well-formed) Go values. -/
theorem decode_marshal : ∀ v : GoValue, v.wf = true →
    ∀ j : Json, v.marshal = some j → decodeAny j = some v
  | .null, _, j, h => by
    rw [GoValue.marshal] at h
    cases h
    rfl
  | .bool b, _, j, h => by
    rw [GoValue.marshal] at h
    cases h
    rfl
  | .int n, _, j, h => by
    rw [GoValue.marshal] at h
    cases h
    rfl
  | .str s, _, j, h => by
    rw [GoValue.marshal] at h
    cases h
    rfl
  | .arr xs, hw, j, h => by
    rw [GoValue.marshal] at h
    rw [Option.map_eq_some'] at h
    obtain ⟨js, hjs, hj⟩ := h
    subst hj
    rw [GoValue.wf] at hw
    rw [decodeAny, decode_marshalList xs hw js hjs]
    rfl
  | .strMap kvs, hw, j, h => by
    rw [GoValue.marshal] at h
    rw [Option.map_eq_some'] at h
    obtain ⟨l, hl, hj⟩ := h
    subst hj
    rw [GoValue.wf, Bool.and_eq_true] at hw
    have hkeys : l.map Prod.fst = kvs.map Prod.fst := marshalObj_keys kvs l hl
    have hsorted : strSorted (l.map Prod.fst) = true := by
      rw [hkeys]
      exact hw.1
    rw [sortByKey_eq_self l hsorted, decodeAny, decode_marshalObj kvs hw.2 l hl]
    rfl
  | .chanV, _, j, h => by
    rw [GoValue.marshal] at h
    cases h

/-- Round trip of the codec on each element of a slice. -/
theorem decode_marshalList : ∀ xs : List GoValue, wfList xs = true →
    ∀ js : List Json, marshalList xs = some js → decodeAnyList js = some xs
  | [], _, js, h => by
    rw [marshalList] at h
    cases h
    rfl
  | x :: xs, hw, js, h => by
    rw [marshalList] at h
    rw [wfList, Bool.and_eq_true] at hw
    cases hm : x.marshal with
    | none => rw [hm] at h; exact absurd h (by simp)
    | some j =>
      cases ho : marshalList xs with
      | none => rw [hm, ho] at h; exact absurd h (by simp)
      | some js2 =>
        rw [hm, ho] at h
        cases h
        rw [decodeAnyList, decode_marshal x hw.1 j hm, decode_marshalList xs hw.2 js2 ho]

/-- Round trip of the codec on each entry of a map. -/
theorem decode_marshalObj : ∀ kvs : List (String × GoValue), wfObj kvs = true →
    ∀ l : List (String × Json), marshalObj kvs = some l → decodeAnyObj l = some kvs
  | [], _, l, h => by
    rw [marshalObj] at h
    cases h
    rfl
  | kv :: rest, hw, l, h => by
    rw [marshalObj] at h
    rw [wfObj, Bool.and_eq_true] at hw
    cases hm : kv.2.marshal with
    | none => rw [hm] at h; exact absurd h (by simp)
    | some j =>
      cases ho : marshalObj rest with
      | none => rw [hm, ho] at h; exact absurd h (by simp)
      | some js =>
        rw [hm, ho] at h
        cases h
        rw [decodeAnyObj, decode_marshal kv.2 hw.1 j hm, decode_marshalObj rest hw.2 js ho]

end

/-- On a healthy store, `Set` of a serializable value is exactly the
upsert, with no error. -/
theorem Tag.Set_ok (t : Tag) (db : List Row) (v : GoValue) (j : Json)
    (hm : v.marshal = some j) :
    t.Set okFaults db v = (tagUpsert db t.«universe» t.entity t.key j, none) := by
  rw [Tag.Set, hm]
  rfl

/-- On a healthy store, `Delete` is exactly the SQL delete, with no
error. -/
theorem Tag.Delete_ok (t : Tag) (db : List Row) :
    t.Delete okFaults db = (tagDelete db t.«universe» t.entity t.key, none) := rfl

/-- On a healthy store, `Get` of a present, decodable row succeeds. -/
theorem Tag.Get_found {α : Type} (t : Tag) (dec : Json → Option α) (db : List Row)
    (slot : α) (j : Json) (hq : tagQuery db t.«universe» t.entity t.key = some j)
    (v : α) (hd : dec j = some v) :
    t.Get dec okFaults db slot = (true, v, none) := by
  simp [Tag.Get, okFaults, hq, hd]

/-- On a healthy store, `Get` of an absent row reports `found = false`,
no error, and returns the slot untouched. -/
theorem Tag.Get_absent {α : Type} (t : Tag) (dec : Json → Option α) (db : List Row)
    (slot : α) (h : tagQuery db t.«universe» t.entity t.key = none) :
    t.Get dec okFaults db slot = (false, slot, none) := by
  simp [Tag.Get, okFaults, h]

/-- C1: for every JSON-representable value `v` (a canonical Go value that
`json.Marshal` accepts) and every triple, `Set(v)` on a healthy store
followed by `Get` into a compatibly-typed (`any`) slot returns no error
from `Set`, and `Get` yields `found = true` with the output equal to
`v`. -/
theorem C1_set_get_round_trip (t : Tag) (db : List Row) (v : GoValue) (j : Json)
    (hwf : v.wf = true) (hm : v.marshal = some j) (slot : GoValue) :
    (t.Set okFaults db v).2 = none ∧
    t.Get decodeAny okFaults (t.Set okFaults db v).1 slot = (true, v, none) := by
  rw [Tag.Set_ok t db v j hm]
  exact ⟨rfl, Tag.Get_found t decodeAny _ slot j
    (tagQuery_upsert db t.«universe» t.entity t.key j) v (decode_marshal v hwf j hm)⟩

/-- Witness for C1 at the triple `("u","e","k")` and the value
`"hello"`. -/
theorem C1_set_get_round_trip_witness :
    (Tag.Set ⟨"u", "e", "k"⟩ okFaults [] (GoValue.str "hello")).2 = none ∧
    Tag.Get ⟨"u", "e", "k"⟩ decodeAny okFaults
      (Tag.Set ⟨"u", "e", "k"⟩ okFaults [] (GoValue.str "hello")).1 GoValue.null
      = (true, GoValue.str "hello", none) :=
  C1_set_get_round_trip ⟨"u", "e", "k"⟩ [] (GoValue.str "hello") (Json.str "hello")
    rfl rfl GoValue.null

/-- C3: `Set(a)` then `Set(b)` then `Get` on a healthy store yields `b`
and never `a`, for any starting table (the triple may or may not
pre-exist): the second upsert transitions the triple to `Present(b)`
unconditionally. -/
theorem C3_set_set_get_overwrite (t : Tag) (db : List Row) (a b : GoValue)
    (ja jb : Json) (hma : a.marshal = some ja) (hmb : b.marshal = some jb)
    (hwb : b.wf = true) (slot : GoValue) :
    t.Get decodeAny okFaults (t.Set okFaults (t.Set okFaults db a).1 b).1 slot
      = (true, b, none) ∧
    (a ≠ b →
      (t.Get decodeAny okFaults (t.Set okFaults (t.Set okFaults db a).1 b).1 slot).2.1
        ≠ a) := by
  have h1 := Tag.Set_ok t db a ja hma
  have h2 := Tag.Set_ok t (t.Set okFaults db a).1 b jb hmb
  have hget : t.Get decodeAny okFaults (t.Set okFaults (t.Set okFaults db a).1 b).1 slot
      = (true, b, none) := by
    rw [h2]
    exact Tag.Get_found t decodeAny _ slot jb
      (tagQuery_upsert _ t.«universe» t.entity t.key jb) b (decode_marshal b hwb jb hmb)
  refine ⟨hget, fun hne => ?_⟩
  rw [hget]
  exact fun hba => hne hba.symm

/-- Witness for C3: overwrite `"hello"` with `"world"` on a fresh
table. -/
theorem C3_set_set_get_overwrite_witness :
    Tag.Get ⟨"u", "e", "k"⟩ decodeAny okFaults
      (Tag.Set ⟨"u", "e", "k"⟩ okFaults
        (Tag.Set ⟨"u", "e", "k"⟩ okFaults [] (GoValue.str "hello")).1
        (GoValue.str "world")).1 GoValue.null
      = (true, GoValue.str "world", none) ∧
    (GoValue.str "hello" ≠ GoValue.str "world" →
      (Tag.Get ⟨"u", "e", "k"⟩ decodeAny okFaults
        (Tag.Set ⟨"u", "e", "k"⟩ okFaults
          (Tag.Set ⟨"u", "e", "k"⟩ okFaults [] (GoValue.str "hello")).1
          (GoValue.str "world")).1 GoValue.null).2.1 ≠ GoValue.str "hello") :=
  C3_set_set_get_overwrite ⟨"u", "e", "k"⟩ [] (GoValue.str "hello") (GoValue.str "world")
    (Json.str "hello") (Json.str "world") rfl rfl rfl GoValue.null

/-- C4: on a healthy store, `Delete` of an absent triple returns no error
and leaves the table unchanged; `Delete` never errors; and a repeated
`Delete` of the same triple is a successful no-op on the state the first
`Delete` produced. -/
theorem C4_delete_idempotent (t : Tag) (db : List Row) :
    (tagQuery db t.«universe» t.entity t.key = none →
      t.Delete okFaults db = (db, none)) ∧
    (t.Delete okFaults db).2 = none ∧
    t.Delete okFaults (t.Delete okFaults db).1 = ((t.Delete okFaults db).1, none) := by
  refine ⟨fun h => ?_, ?_, ?_⟩
  · rw [Tag.Delete_ok, tagDelete_of_absent h]
  · rw [Tag.Delete_ok]
  · simp [Tag.Delete_ok, tagDelete_idem]

/-- Witness for C4 at an empty table (the triple is absent) and at a
table holding the triple. -/
theorem C4_delete_idempotent_witness :
    ((tagQuery [] "u" "e" "k" = none →
      Tag.Delete ⟨"u", "e", "k"⟩ okFaults [] = ([], none)) ∧
    (Tag.Delete ⟨"u", "e", "k"⟩ okFaults []).2 = none ∧
    Tag.Delete ⟨"u", "e", "k"⟩ okFaults (Tag.Delete ⟨"u", "e", "k"⟩ okFaults []).1
      = ((Tag.Delete ⟨"u", "e", "k"⟩ okFaults []).1, none)) ∧
    Tag.Delete ⟨"u", "e", "k"⟩ okFaults
        (Tag.Delete ⟨"u", "e", "k"⟩ okFaults [⟨"u", "e", "k", Json.null⟩]).1
      = ((Tag.Delete ⟨"u", "e", "k"⟩ okFaults [⟨"u", "e", "k", Json.null⟩]).1, none) :=
  ⟨C4_delete_idempotent ⟨"u", "e", "k"⟩ [],
    (C4_delete_idempotent ⟨"u", "e", "k"⟩ [⟨"u", "e", "k", Json.null⟩]).2.2⟩

/-- C5: on a healthy store, `Get` of a triple with no stored row returns
`found = false` with no error, and the caller's output slot comes back
exactly as it went in, whatever the slot type and decoder. -/
theorem C5_get_absent_slot_untouched {α : Type} (dec : Json → Option α) (t : Tag)
    (db : List Row) (slot : α)
    (h : tagQuery db t.«universe» t.entity t.key = none) :
    t.Get dec okFaults db slot = (false, slot, none) :=
  Tag.Get_absent t dec db slot h

/-- Witness for C5: a `*string` slot holding a sentinel survives a `Get`
on an empty table. -/
theorem C5_get_absent_slot_untouched_witness :
    Tag.Get ⟨"u", "e", "k"⟩ decodeOptStr okFaults [] (some "sentinel")
      = (false, some "sentinel", none) :=
  C5_get_absent_slot_untouched decodeOptStr ⟨"u", "e", "k"⟩ [] (some "sentinel") rfl

/-- C7: when `json.Marshal` rejects the value, `Set` returns the encoding
error and the table is unchanged, whatever the state of the store: the
failure happens before `db.Begin` is ever called. -/
theorem C7_set_encoding_error (t : Tag) (f : StoreFaults) (db : List Row)
    (v : GoValue) (h : v.marshal = none) :
    t.Set f db v = (db, some TagError.encodingError) := by
  simp [Tag.Set, h]

/-- Witness for C7: a channel value on a store whose every driver call
would fail. -/
theorem C7_set_encoding_error_witness :
    Tag.Set ⟨"u", "e", "k"⟩ ⟨true, true, true, true, true, true⟩ [⟨"u", "e", "k", Json.null⟩]
        GoValue.chanV
      = ([⟨"u", "e", "k", Json.null⟩], some TagError.encodingError) :=
  C7_set_encoding_error ⟨"u", "e", "k"⟩ ⟨true, true, true, true, true, true⟩
    [⟨"u", "e", "k", Json.null⟩] GoValue.chanV rfl

/-- C8: `Set(nil)` persists the literal JSON text `null` (distinct from
the row being absent): the stored row's text renders as `"null"`, a `Get`
into a nullable string slot finds it and clears the slot to nil, while a
`Get` on a triple with no row reports `found = false`. -/
theorem C8_null_literal_vs_absent (t : Tag) (db : List Row) (slot : Option String)
    (db2 : List Row) (u2 e2 k2 : String) (slot2 : Option String)
    (habs : tagQuery db2 u2 e2 k2 = none) :
    (t.Set okFaults db GoValue.null).2 = none ∧
    (tagQuery (t.Set okFaults db GoValue.null).1 t.«universe» t.entity t.key).map
        renderJson = some "null" ∧
    t.Get decodeOptStr okFaults (t.Set okFaults db GoValue.null).1 slot
      = (true, none, none) ∧
    (Tag.Get ⟨u2, e2, k2⟩ decodeOptStr okFaults db2 slot2).1 = false := by
  have hset := Tag.Set_ok t db GoValue.null Json.null rfl
  rw [hset]
  refine ⟨rfl, ?_, ?_, ?_⟩
  · rw [tagQuery_upsert]
    rfl
  · exact Tag.Get_found t decodeOptStr _ slot Json.null
      (tagQuery_upsert db t.«universe» t.entity t.key Json.null) none rfl
  · rw [Tag.Get_absent ⟨u2, e2, k2⟩ decodeOptStr db2 slot2 habs]

/-- Witness for C8: key `str` over a fresh table, slot preloaded with a
fake value, contrasted with a `Get` at an absent key. -/
theorem C8_null_literal_vs_absent_witness :
    (Tag.Set ⟨"1234", "5678", "str"⟩ okFaults [] GoValue.null).2 = none ∧
    (tagQuery (Tag.Set ⟨"1234", "5678", "str"⟩ okFaults [] GoValue.null).1
        "1234" "5678" "str").map renderJson = some "null" ∧
    Tag.Get ⟨"1234", "5678", "str"⟩ decodeOptStr okFaults
        (Tag.Set ⟨"1234", "5678", "str"⟩ okFaults [] GoValue.null).1
        (some "fakeResult")
      = (true, none, none) ∧
    (Tag.Get ⟨"1234", "5678", "empty"⟩ decodeOptStr okFaults [] none).1 = false :=
  C8_null_literal_vs_absent ⟨"1234", "5678", "str"⟩ [] (some "fakeResult")
    [] "1234" "5678" "empty" none rfl

/-- C10: `Get` never reports `found = true` together with an error: every
failure path (statement preparation, query execution, row scan, decoding)
reports `found = false`, so `found = true` forces a nil error and an
output slot holding exactly the decoded stored value. -/
theorem C10_found_implies_no_error {α : Type} (dec : Json → Option α) (t : Tag)
    (f : StoreFaults) (db : List Row) (slot : α)
    (h : (t.Get dec f db slot).1 = true) :
    (t.Get dec f db slot).2.2 = none ∧
    (tagQuery db t.«universe» t.entity t.key).bind dec
      = some (t.Get dec f db slot).2.1 := by
  simp only [Tag.Get] at h ⊢
  by_cases h1 : f.prepare = true
  · simp [h1] at h
  · by_cases h2 : f.query = true
    · simp [h1, h2] at h
    · cases hq : tagQuery db t.«universe» t.entity t.key with
      | none => simp [h1, h2, hq] at h
      | some j =>
        by_cases h3 : f.scan = true
        · simp [h1, h2, hq, h3] at h
        · cases hd : dec j with
          | none => simp [h1, h2, hq, h3, hd] at h
          | some v => simp [h1, h2, hq, h3, hd]

/-- Witness for C10: a present, decodable row on a healthy store. -/
theorem C10_found_implies_no_error_witness :
    (Tag.Get ⟨"u", "e", "k"⟩ decodeOptStr okFaults
        [⟨"u", "e", "k", Json.str "hi"⟩] none).2.2 = none ∧
    (tagQuery [⟨"u", "e", "k", Json.str "hi"⟩] "u" "e" "k").bind decodeOptStr
      = some (Tag.Get ⟨"u", "e", "k"⟩ decodeOptStr okFaults
          [⟨"u", "e", "k", Json.str "hi"⟩] none).2.1 :=
  C10_found_implies_no_error decodeOptStr ⟨"u", "e", "k"⟩ okFaults
    [⟨"u", "e", "k", Json.str "hi"⟩] none rfl

/-- C2 (failing evaluation): the `tagKeys` statement has no `ORDER BY`
clause, so the store returns the keys of the `(universe, entity)` pair in
whatever order its scan produces — under a table scan, insertion order.
Setting keys `"b"`, `"a"`, `"c"` in that order on one entity and listing
them yields `["b", "a", "c"]`, not the sorted `["a", "b", "c"]` that the
specification promises and the package's own `TestTagList` expects. -/
theorem C2_listing_not_sorted :
    (NewTagsEngine.TagBag "u" "e").Tags okFaults
        ((NewTagsEngine.Tag "u" "e" "c").Set okFaults
          ((NewTagsEngine.Tag "u" "e" "a").Set okFaults
            ((NewTagsEngine.Tag "u" "e" "b").Set okFaults [] (GoValue.bool true)).1
            (GoValue.bool true)).1
          (GoValue.bool true)).1
      = (some ["b", "a", "c"], none) ∧
    (["b", "a", "c"] : List String) ≠ ["a", "b", "c"] :=
  ⟨rfl, by decide⟩

/-- C6 (counterexample): inside `TagBag.Tags` the result of `rs.Scan` is
never examined, so a failing scan is silently swallowed: on a table whose
pair holds the single key `"k"`, `Tags()` returns the zero-valued list
`[""]` together with a nil error, although every scan failed. -/
theorem C6_scan_error_swallowed :
    scanFault.scan = true ∧
    tagKeys [⟨"u", "e", "k", Json.null⟩] "u" "e" = ["k"] ∧
    TagBag.Tags ⟨"u", "e"⟩ scanFault [⟨"u", "e", "k", Json.null⟩] = (some [""], none) :=
  ⟨rfl, rfl, rfl⟩

/-- C6 (amended): every error of `Prepare`, `Begin`, `Query` and `Exec`,
and both codec errors, are returned to the immediate caller of `Get`,
`Set`, `Delete` and `Tags`; but the `rs.Scan` error inside `Tags` and the
`tx.Commit` errors inside `Set` and `Delete` are discarded — those calls
report a nil error (and, for a failed commit, the rolled-back, unchanged
table). -/
theorem C6_error_propagation {α : Type} (dec : Json → Option α) (t : Tag)
    (bag : TagBag) (db : List Row) (slot : α) (v w : GoValue) (jv j0 : Json)
    (hv : v.marshal = some jv) (hw : w.marshal = none)
    (hrow : tagQuery db t.«universe» t.entity t.key = some j0)
    (hdec : dec j0 = none) :
    (t.Get dec prepareFault db slot).2.2 = some TagError.prepareFailed ∧
    (t.Get dec queryFault db slot).2.2 = some TagError.queryFailed ∧
    (t.Get dec scanFault db slot).2.2 = some TagError.scanFailed ∧
    (t.Get dec okFaults db slot).2.2 = some TagError.decodingError ∧
    (t.Set beginFault db v).2 = some TagError.beginFailed ∧
    (t.Set prepareFault db v).2 = some TagError.prepareFailed ∧
    (t.Set execFault db v).2 = some TagError.execFailed ∧
    (t.Set okFaults db w).2 = some TagError.encodingError ∧
    (t.Delete beginFault db).2 = some TagError.beginFailed ∧
    (t.Delete prepareFault db).2 = some TagError.prepareFailed ∧
    (t.Delete execFault db).2 = some TagError.execFailed ∧
    (bag.Tags prepareFault db).2 = some TagError.prepareFailed ∧
    (bag.Tags queryFault db).2 = some TagError.queryFailed ∧
    (t.Set commitFault db v).2 = none ∧
    (t.Set commitFault db v).1 = db ∧
    (t.Delete commitFault db).2 = none ∧
    (t.Delete commitFault db).1 = db ∧
    (bag.Tags scanFault db).2 = none :=
  ⟨by simp [Tag.Get, prepareFault],
    by simp [Tag.Get, queryFault],
    by simp [Tag.Get, scanFault, hrow],
    by simp [Tag.Get, okFaults, hrow, hdec],
    by simp [Tag.Set, beginFault, hv],
    by simp [Tag.Set, prepareFault, hv],
    by simp [Tag.Set, execFault, hv],
    by simp [Tag.Set, hw],
    by simp [Tag.Delete, beginFault],
    by simp [Tag.Delete, prepareFault],
    by simp [Tag.Delete, execFault],
    by simp [TagBag.Tags, prepareFault],
    by simp [TagBag.Tags, queryFault],
    by simp [Tag.Set, commitFault, hv],
    by simp [Tag.Set, commitFault, hv],
    by simp [Tag.Delete, commitFault],
    by simp [Tag.Delete, commitFault],
    by simp [TagBag.Tags, scanFault]⟩

/-- Witness for C6 (amended): concrete handles over a table holding a
number under key `"k"`, decoded into a `*string` slot, with `"x"` as the
serializable and a channel as the unserializable value. -/
theorem C6_error_propagation_witness :
    (Tag.Get ⟨"u", "e", "k"⟩ decodeOptStr prepareFault [⟨"u", "e", "k", Json.num 1⟩]
        none).2.2 = some TagError.prepareFailed ∧
    (Tag.Get ⟨"u", "e", "k"⟩ decodeOptStr queryFault [⟨"u", "e", "k", Json.num 1⟩]
        none).2.2 = some TagError.queryFailed ∧
    (Tag.Get ⟨"u", "e", "k"⟩ decodeOptStr scanFault [⟨"u", "e", "k", Json.num 1⟩]
        none).2.2 = some TagError.scanFailed ∧
    (Tag.Get ⟨"u", "e", "k"⟩ decodeOptStr okFaults [⟨"u", "e", "k", Json.num 1⟩]
        none).2.2 = some TagError.decodingError ∧
    (Tag.Set ⟨"u", "e", "k"⟩ beginFault [⟨"u", "e", "k", Json.num 1⟩]
        (GoValue.str "x")).2 = some TagError.beginFailed ∧
    (Tag.Set ⟨"u", "e", "k"⟩ prepareFault [⟨"u", "e", "k", Json.num 1⟩]
        (GoValue.str "x")).2 = some TagError.prepareFailed ∧
    (Tag.Set ⟨"u", "e", "k"⟩ execFault [⟨"u", "e", "k", Json.num 1⟩]
        (GoValue.str "x")).2 = some TagError.execFailed ∧
    (Tag.Set ⟨"u", "e", "k"⟩ okFaults [⟨"u", "e", "k", Json.num 1⟩]
        GoValue.chanV).2 = some TagError.encodingError ∧
    (Tag.Delete ⟨"u", "e", "k"⟩ beginFault [⟨"u", "e", "k", Json.num 1⟩]).2
      = some TagError.beginFailed ∧
    (Tag.Delete ⟨"u", "e", "k"⟩ prepareFault [⟨"u", "e", "k", Json.num 1⟩]).2
      = some TagError.prepareFailed ∧
    (Tag.Delete ⟨"u", "e", "k"⟩ execFault [⟨"u", "e", "k", Json.num 1⟩]).2
      = some TagError.execFailed ∧
    (TagBag.Tags ⟨"u", "e"⟩ prepareFault [⟨"u", "e", "k", Json.num 1⟩]).2
      = some TagError.prepareFailed ∧
    (TagBag.Tags ⟨"u", "e"⟩ queryFault [⟨"u", "e", "k", Json.num 1⟩]).2
      = some TagError.queryFailed ∧
    (Tag.Set ⟨"u", "e", "k"⟩ commitFault [⟨"u", "e", "k", Json.num 1⟩]
        (GoValue.str "x")).2 = none ∧
    (Tag.Set ⟨"u", "e", "k"⟩ commitFault [⟨"u", "e", "k", Json.num 1⟩]
        (GoValue.str "x")).1 = [⟨"u", "e", "k", Json.num 1⟩] ∧
    (Tag.Delete ⟨"u", "e", "k"⟩ commitFault [⟨"u", "e", "k", Json.num 1⟩]).2 = none ∧
    (Tag.Delete ⟨"u", "e", "k"⟩ commitFault [⟨"u", "e", "k", Json.num 1⟩]).1
      = [⟨"u", "e", "k", Json.num 1⟩] ∧
    (TagBag.Tags ⟨"u", "e"⟩ scanFault [⟨"u", "e", "k", Json.num 1⟩]).2 = none :=
  C6_error_propagation decodeOptStr ⟨"u", "e", "k"⟩ ⟨"u", "e"⟩
    [⟨"u", "e", "k", Json.num 1⟩] none (GoValue.str "x") GoValue.chanV
    (Json.str "x") (Json.num 1) rfl rfl rfl rfl

/-- C9 (counterexample): nothing validates the triple: `Set` through a
handle whose universe, entity and key are all the empty string persists a
row whose three components are empty, with no error. -/
theorem C9_empty_triple_persisted :
    Tag.Set ⟨"", "", ""⟩ okFaults [] (GoValue.str "x")
      = ([⟨"", "", "", Json.str "x"⟩], none) ∧
    ((⟨"", "", "", Json.str "x"⟩ : Row)).«universe» = "" :=
  ⟨rfl, rfl⟩

/-- C9 (amended): `Set` performs no validation of the triple: every row
it persists either was already in the table or carries the handle's
universe, entity and key verbatim — empty or not.  Non-emptiness of the
stored triples holds exactly when the caller only ever supplies non-empty
components. -/
theorem C9_set_triple_verbatim (t : Tag) (f : StoreFaults) (db : List Row)
    (v : GoValue) (r : Row) (hr : r ∈ (t.Set f db v).1) :
    r ∈ db ∨ (r.«universe» = t.«universe» ∧ r.entity = t.entity ∧ r.key = t.key) := by
  simp only [Tag.Set] at hr
  cases hm : v.marshal with
  | none =>
    rw [hm] at hr
    exact Or.inl hr
  | some j =>
    rw [hm] at hr
    by_cases h1 : f.beginTx = true
    · simp only [h1, if_true] at hr
      exact Or.inl hr
    · by_cases h2 : f.prepare = true
      · simp only [h1, h2, if_true, if_false, Bool.false_eq_true] at hr
        exact Or.inl hr
      · by_cases h3 : f.exec = true
        · simp only [h1, h2, h3, if_true, if_false, Bool.false_eq_true] at hr
          exact Or.inl hr
        · by_cases h4 : f.commit = true
          · simp only [h1, h2, h3, h4, if_true, if_false, Bool.false_eq_true] at hr
            exact Or.inl hr
          · simp only [h1, h2, h3, h4, if_false, Bool.false_eq_true] at hr
            unfold tagUpsert at hr
            by_cases hany : db.any (rowMatches t.«universe» t.entity t.key) = true
            · rw [if_pos hany] at hr
              obtain ⟨r0, hr0, hgr⟩ := List.mem_map.mp hr
              by_cases hp : rowMatches t.«universe» t.entity t.key r0 = true
              · rw [if_pos hp] at hgr
                have hf := rowMatches_fields hp
                subst hgr
                exact Or.inr hf
              · rw [if_neg hp] at hgr
                subst hgr
                exact Or.inl hr0
            · rw [if_neg hany] at hr
              rcases List.mem_append.mp hr with hin | hin
              · exact Or.inl hin
              · rcases List.mem_singleton.mp hin with rfl
                exact Or.inr ⟨rfl, rfl, rfl⟩

/-- Witness for C9 (amended): the row a fresh `Set` appends carries the
handle's triple. -/
theorem C9_set_triple_verbatim_witness :
    (⟨"u", "e", "k", Json.str "x"⟩ : Row) ∈ ([] : List Row) ∨
    ((⟨"u", "e", "k", Json.str "x"⟩ : Row).«universe» = "u" ∧
      (⟨"u", "e", "k", Json.str "x"⟩ : Row).entity = "e" ∧
      (⟨"u", "e", "k", Json.str "x"⟩ : Row).key = "k") :=
  C9_set_triple_verbatim ⟨"u", "e", "k"⟩ okFaults [] (GoValue.str "x")
    ⟨"u", "e", "k", Json.str "x"⟩ (List.mem_singleton.mpr rfl)
